import Mathlib

/-!
Verification development for the zeirishi scraper
(`zeirishikensaku_scraper_template.py`).

The Python source is embedded shallowly:

* pure string functions (`normalize_era`, `extract_email`, the
  `mailto:` handling of `fetch_email_from_detail`) are translated to
  executable Lean functions over `List Char`;
* HTML documents (the output of `BeautifulSoup(...)`) are modelled as a
  forest of `Html` trees, and the handful of CSS selectors the script
  uses (`.class`, `tag`, `a[href]`, `a[href^='mailto:']`) are modelled
  by `Selector` / `matchesSel`; `select` / `select_one` become
  document-order (preorder) traversals, `get_text` becomes
  `soupGetText` / `elemTextStrip`;
* network effects are parameters: a fetch is a function
  `String → FetchResult`, a fetched-and-parsed results page is a
  function `Nat → List ListingRecord`, and `urljoin`
  (`requests.compat.urljoin`, third-party) is an abstract
  `String → String → String` argument;
* the `while True` pagination loop of `main` is `runLoop`, written with
  explicit fuel (the loop terminates as soon as a page parses to zero
  records; all theorems about it supply enough fuel);
* `pandas.drop_duplicates(subset=["key"], keep="first")` is
  `drop_duplicates_first`, boolean-mask filtering is `List.filter`, and
  the two `to_excel` calls become the `Sheet` values built by `export`.

Python's `re` character classes are modelled as follows: `\s` (str
patterns) is the Python whitespace set `isSpaceRe`; `\d` matches
Unicode decimal digits, modelled here by `isDigitRe` as the ASCII and
fullwidth digit ranges (the decimal-digit forms that occur in the
site's Japanese text).
-/

/-- Python whitespace (`str.isspace` / `re` module `\s` for `str`
patterns): ASCII whitespace, the information separators, NEL, NBSP and
the Unicode space characters. -/
def isSpaceRe (c : Char) : Bool :=
  let n := c.toNat
  (decide (9 ≤ n) && decide (n ≤ 13)) ||
  (decide (28 ≤ n) && decide (n ≤ 31)) ||
  n == 32 || n == 133 || n == 160 || n == 0x1680 ||
  (decide (0x2000 ≤ n) && decide (n ≤ 0x200a)) ||
  n == 0x2028 || n == 0x2029 || n == 0x202f || n == 0x205f || n == 0x3000

/-- Decimal digits as matched by Python's `\d` on `str` patterns,
restricted to the ASCII and fullwidth ranges. -/
def isDigitRe (c : Char) : Bool :=
  c.isDigit || (decide (0xff10 ≤ c.toNat) && decide (c.toNat ≤ 0xff19))

/-- Python `str.strip()` on a character list: drop leading and trailing
Python whitespace. -/
def trimSpacesList (l : List Char) : List Char :=
  ((l.dropWhile isSpaceRe).reverse.dropWhile isSpaceRe).reverse

/-- Python `str.strip()`. -/
def pyStrip (s : String) : String :=
  String.mk (trimSpacesList s.data)

/-- Python `sep.join(parts)` on character lists. -/
def joinSep (sep : List Char) : List (List Char) → List Char
  | [] => []
  | [x] => x
  | x :: y :: t => x ++ sep ++ joinSep sep (y :: t)

/-- Python `s.replace(pat, "")`: left-to-right removal of every
non-overlapping occurrence of `pat`.  The first argument is fuel; the
callers always pass the length of the scanned list, which suffices
because `pat` is nonempty at every use site. -/
def removeAllAux (pat : List Char) : Nat → List Char → List Char
  | 0, l => l
  | _ + 1, [] => []
  | fuel + 1, c :: cs =>
    if pat.isPrefixOf (c :: cs) then removeAllAux pat fuel ((c :: cs).drop pat.length)
    else c :: removeAllAux pat fuel cs

/-- Python `s.replace(pat, "")` on strings. -/
def removeAll (pat : String) (s : String) : String :=
  String.mk (removeAllAux pat.data s.data.length s.data)

/-! ## Era normalizer (`normalize_era`, source lines 39–46)

The regex is `(平成|令和)\s*\d+年(?:\d+月)?`, scanned with
`re.finditer`.  Because the character classes of adjacent regex pieces
are disjoint, the backtracking search is equivalent to the greedy
deterministic matcher below. -/

/-- Alternation `(平成|令和)` at the head of the input: the matched era
name and the remaining characters. -/
def eraHead : List Char → Option (List Char × List Char)
  | '平' :: '成' :: rest => some (['平', '成'], rest)
  | '令' :: '和' :: rest => some (['令', '和'], rest)
  | _ => none

/-- Anchored match of `(平成|令和)\s*\d+年(?:\d+月)?` at the head of the
input; on success returns the matched characters and the rest of the
input after the match. -/
def matchEraAt (l : List Char) : Option (List Char × List Char) :=
  match eraHead l with
  | none => none
  | some (era, r1) =>
    let sp := r1.takeWhile isSpaceRe
    let r2 := r1.dropWhile isSpaceRe
    let ds := r2.takeWhile isDigitRe
    let r3 := r2.dropWhile isDigitRe
    if ds.isEmpty then none
    else
      match r3 with
      | '年' :: r4 =>
        let ds2 := r4.takeWhile isDigitRe
        let r5 := r4.dropWhile isDigitRe
        if ds2.isEmpty then some (era ++ sp ++ ds ++ ['年'], r4)
        else
          match r5 with
          | '月' :: r6 => some (era ++ sp ++ ds ++ '年' :: (ds2 ++ ['月']), r6)
          | _ => some (era ++ sp ++ ds ++ ['年'], r4)
      | _ => none

/-- Scan of `re.finditer`: try an anchored match at every position from
left to right; after a match, continue right after it.  Fuel-driven;
fuel equal to the length of the list suffices since each step consumes
at least one character. -/
def findErasAux : Nat → List Char → List (List Char)
  | 0, _ => []
  | _ + 1, [] => []
  | fuel + 1, c :: cs =>
    match matchEraAt (c :: cs) with
    | some (m, rest) => m :: findErasAux fuel rest
    | none => findErasAux fuel cs

/-- All matches of the era regex in the text, in order of appearance. -/
def findEraMatches (l : List Char) : List (List Char) :=
  findErasAux l.length l

/-- Source `normalize_era`: collect the era matches, delete the ASCII
space characters of each match (`m.group(0).replace(" ", "")`), and
join with `"／"`. -/
def normalize_era (text : String) : String :=
  String.mk (joinSep "／".data
    ((findEraMatches text.data).map (fun m => m.filter (fun c => c != ' '))))

/-- Declarative shape of one era-regex match:
`(平成|令和)`, then whitespace, then a nonempty digit run, then `年`,
then optionally a nonempty digit run followed immediately by `月`. -/
def EraShape (m : List Char) : Prop :=
  ∃ era sp ds tail,
    m = era ++ sp ++ ds ++ '年' :: tail ∧
    (era = ['平', '成'] ∨ era = ['令', '和']) ∧
    (∀ c ∈ sp, isSpaceRe c = true) ∧
    ds ≠ [] ∧ (∀ c ∈ ds, isDigitRe c = true) ∧
    (tail = [] ∨ ∃ ds2, tail = ds2 ++ ['月'] ∧ ds2 ≠ [] ∧ ∀ c ∈ ds2, isDigitRe c = true)

/-! ## Email regex (`extract_email`, source lines 48–50)

The regex is `[A-Za-z0-9._%+\-]+@[A-Za-z0-9.\-]+\.[A-Za-z]{2,}`,
applied with `re.search`.  The local-part run and the final letter run
need no backtracking (their classes are disjoint from the following
literal); the domain run does backtrack over its internal dots, which
is equivalent to choosing the rightmost dot of the maximal domain run
that is followed by at least two letters. -/

/-- Class `[A-Za-z0-9._%+\-]` (local part). -/
def isLocalChar (c : Char) : Bool :=
  c.isAlpha || c.isDigit || c == '.' || c == '_' || c == '%' || c == '+' || c == '-'

/-- Class `[A-Za-z0-9.\-]` (domain). -/
def isDomainChar (c : Char) : Bool :=
  c.isAlpha || c.isDigit || c == '.' || c == '-'

/-- Candidate split point for `[A-Za-z0-9.\-]+\.[A-Za-z]{2,}` inside the
maximal domain-character run: position `j` holds a dot, is preceded by a
nonempty domain prefix, and is followed by at least two ASCII letters. -/
def goodDot (run : List Char) (j : Nat) : Bool :=
  decide (1 ≤ j) && (run.getD j ' ' == '.') &&
  decide (2 ≤ ((run.drop (j + 1)).takeWhile Char.isAlpha).length)

/-- Greedy match of `[A-Za-z0-9.\-]+\.[A-Za-z]{2,}` at the head of the
input: the backtracking engine settles on the rightmost good dot of the
maximal domain run. -/
def matchDomain (rest : List Char) : Option (List Char) :=
  let run := rest.takeWhile isDomainChar
  match ((List.range run.length).filter (fun j => goodDot run j)).getLast? with
  | some j => some (run.take j ++ '.' :: (run.drop (j + 1)).takeWhile Char.isAlpha)
  | none => none

/-- Anchored match of the full email regex at the head of the input. -/
def matchEmailAt (l : List Char) : Option (List Char) :=
  let loc := l.takeWhile isLocalChar
  if loc.isEmpty then none
  else
    match l.dropWhile isLocalChar with
    | '@' :: rest => (matchDomain rest).map (fun d => loc ++ '@' :: d)
    | _ => none

/-- Scan of `re.search`: the match at the leftmost position where an
anchored match exists. -/
def searchEmail : List Char → Option (List Char)
  | [] => none
  | c :: cs =>
    match matchEmailAt (c :: cs) with
    | some m => some m
    | none => searchEmail cs

/-- Source `extract_email`: first regex match in the text, or the empty
string when there is none. -/
def extract_email (text : String) : String :=
  match searchEmail text.data with
  | some m => String.mk m
  | none => ""

/-- Declarative shape of one email-regex match:
nonempty local run, `@`, nonempty domain run, `.`, at least two ASCII
letters. -/
def EmailShape (m : List Char) : Prop :=
  ∃ loc dom tld,
    m = loc ++ '@' :: (dom ++ '.' :: tld) ∧
    loc ≠ [] ∧ (∀ c ∈ loc, isLocalChar c = true) ∧
    dom ≠ [] ∧ (∀ c ∈ dom, isDomainChar c = true) ∧
    2 ≤ tld.length ∧ (∀ c ∈ tld, Char.isAlpha c = true)

/-! ## HTML documents and selectors

A parsed page (`BeautifulSoup(html, "lxml")`) is a forest of nodes.
Only the selector forms actually used by the script are modelled. -/

/-- Parsed HTML node: a text node, or an element with a tag name, an
attribute list and child nodes. -/
inductive Html where
  | text : String → Html
  | elem : String → List (String × String) → List Html → Html

/-- CSS selector forms used by the script: `.class`, `tag`,
`tag[attr]`, and `tag[attr^='value']`. -/
inductive Selector where
  | cls : String → Selector
  | tag : String → Selector
  | tagWithAttr : String → String → Selector
  | tagAttrStarts : String → String → String → Selector

/-- First value of an attribute, as `Tag.get` / `Tag["name"]`. -/
def getAttr (attrs : List (String × String)) (name : String) : Option String :=
  (attrs.find? (fun p => p.1 == name)).map (fun p => p.2)

/-- Whitespace word split (Python `str.split()` with no argument): the
maximal nonempty runs of non-whitespace characters.  The accumulator
holds the current word reversed. -/
def splitWordsAux : List Char → List Char → List (List Char)
  | [], acc => if acc.isEmpty then [] else [acc.reverse]
  | c :: cs, acc =>
    if c.isWhitespace then
      if acc.isEmpty then splitWordsAux cs [] else acc.reverse :: splitWordsAux cs []
    else splitWordsAux cs (c :: acc)

/-- Whitespace-split class list of an element (BeautifulSoup splits the
`class` attribute into a list of class names). -/
def classList (attrs : List (String × String)) : List (List Char) :=
  splitWordsAux ((getAttr attrs "class").getD "").data []

/-- Does one selector match an element with the given tag and
attributes? -/
def matchesSel (s : Selector) (tag : String) (attrs : List (String × String)) : Bool :=
  match s with
  | .cls n => (classList attrs).contains n.data
  | .tag t => tag == t
  | .tagWithAttr t a => tag == t && (getAttr attrs a).isSome
  | .tagAttrStarts t a v => tag == t &&
      (match getAttr attrs a with
       | some w => v.data.isPrefixOf w.data
       | none => false)

mutual
/-- Elements of a tree matching any of the selectors, in document
(preorder) order, the root element included. -/
def selTree (sels : List Selector) : Html → List Html
  | .text _ => []
  | .elem t a cs =>
    (if sels.any (fun s => matchesSel s t a) then [Html.elem t a cs] else []) ++
    selForest sels cs
/-- Elements of a forest matching any of the selectors, in document
order (`soup.select` with a comma-separated selector). -/
def selForest (sels : List Selector) : List Html → List Html
  | [] => []
  | h :: hs => selTree sels h ++ selForest sels hs
end

/-- Matching strict descendants of an element (`Tag.select` searches
descendants only, never the element itself). -/
def selDescendants (sels : List Selector) : Html → List Html
  | .text _ => []
  | .elem _ _ cs => selForest sels cs

mutual
/-- Text-node strings of a tree, in document order. -/
def textsTree : Html → List String
  | .text s => [s]
  | .elem _ _ cs => textsForest cs
/-- Text-node strings of a forest, in document order. -/
def textsForest : List Html → List String
  | [] => []
  | h :: hs => textsTree h ++ textsForest hs
end

/-- BeautifulSoup `soup.get_text(sep, strip=True)`: strip every text
node, drop the ones that become empty, join with the separator. -/
def soupGetText (sep : String) (doc : List Html) : String :=
  String.mk (joinSep sep.data
    (((textsForest doc).map (fun s => trimSpacesList s.data)).filter (fun l => !l.isEmpty)))

/-- BeautifulSoup `tag.get_text(strip=True)` (separator `""`). -/
def elemTextStrip (h : Html) : String :=
  String.mk (joinSep []
    (((textsTree h).map (fun s => trimSpacesList s.data)).filter (fun l => !l.isEmpty)))

/-! ## Email extraction from a detail page
(`fetch_email_from_detail`, source lines 52–75) -/

/-- The `href` of the first `a[href^='mailto:']` anchor of the document
(`soup.select_one` then `a_mail.get("href", "")`). -/
def firstMailtoHref (doc : List Html) : Option String :=
  match (selForest [Selector.tagAttrStarts "a" "href" "mailto:"] doc).head? with
  | some (.elem _ attrs _) => some ((getAttr attrs "href").getD "")
  | _ => none

/-- Email extraction of `fetch_email_from_detail` after a successful
fetch: prefer the first `mailto:` anchor (its `href` with every
`"mailto:"` occurrence removed and then stripped, if that is nonempty),
otherwise the first email-regex match of the whitespace-joined page
text. -/
def emailFromDoc (doc : List Html) : String :=
  match firstMailtoHref doc with
  | some href =>
    let mail := pyStrip (removeAll "mailto:" href)
    if mail != "" then mail else extract_email (soupGetText " " doc)
  | none => extract_email (soupGetText " " doc)

/-- Outcome of `session.get` on a detail URL followed by
`raise_for_status` and HTML parsing: a parsed document, a network
error, or a non-success HTTP status (which makes `raise_for_status`
raise). -/
inductive FetchResult where
  | ok : List Html → FetchResult
  | netError : FetchResult
  | httpError : Nat → FetchResult

/-- Source `fetch_email_from_detail`: empty result for an absent URL
(Python `if not url` is also true for the empty string), for a network
error and for a non-success status; otherwise extract an email from the
fetched document.  Total — the Python `try/except` never lets an
exception escape. -/
def fetch_email_from_detail (fetch : String → FetchResult) (url : Option String) : String :=
  match url with
  | none => ""
  | some u =>
    if u = "" then ""
    else
      match fetch u with
      | .ok doc => emailFromDoc doc
      | .netError => ""
      | .httpError _ => ""

/-! ## Listing records and the listing parser
(`parse_list`, source lines 77–119) -/

/-- One row of `parse_list`.  Field names translate the Japanese dict
keys: `prefecture` = 県, `officeName` = 事務所名, `representativeName`
= 代表者名, `phone` = 電話番号, `email` = メールアドレス, `address` =
住所, `registrationEra` = 登録年日（平成/令和）, `detailUrl` =
detail_url. -/
structure ListingRecord where
  prefecture : String
  officeName : String
  representativeName : String
  phone : String
  email : String
  address : String
  registrationEra : String
  detailUrl : Option String
deriving DecidableEq, Repr

/-- Fixed base search URL of the script. -/
def BASE_URL : String := "https://www.zeirishikensaku.jp/NzSearchContentPerson"

/-- Card selector list `.resultItem, .search-result-item, .listItem`. -/
def cardSelectors : List Selector :=
  [.cls "resultItem", .cls "search-result-item", .cls "listItem"]

/-- Office-name selector list `.officeName, .name, h3`. -/
def officeSelectors : List Selector := [.cls "officeName", .cls "name", .tag "h3"]

/-- Representative selector list `.rep, .representative, .owner`. -/
def repSelectors : List Selector := [.cls "rep", .cls "representative", .cls "owner"]

/-- Phone selector list `.tel, .phone`. -/
def telSelectors : List Selector := [.cls "tel", .cls "phone"]

/-- Address selector list `.addr, .address`. -/
def addrSelectors : List Selector := [.cls "addr", .cls "address"]

/-- Registration selector list `.registered, .register, .reg`. -/
def regSelectors : List Selector := [.cls "registered", .cls "register", .cls "reg"]

/-- Field extraction `c.select_one(sels)` followed by
`get_text(strip=True)`, with the empty string when nothing matches. -/
def selectOneText (sels : List Selector) (card : Html) : String :=
  match (selDescendants sels card).head? with
  | some e => elemTextStrip e
  | none => ""

/-- The `href` of the first `a[href]` descendant of a card
(`c.select_one("a[href]")`). -/
def firstHref (card : Html) : Option String :=
  match (selDescendants [Selector.tagWithAttr "a" "href"] card).head? with
  | some (.elem _ attrs _) => getAttr attrs "href"
  | _ => none

/-- Source `parse_list`, parametric in `urljoin`
(`requests.compat.urljoin`, a third-party function): one record per
card, each field the stripped text of the first matching descendant or
the empty string, the registration field passed through
`normalize_era`, and the detail URL taken from the first `a[href]`
descendant, joined onto `BASE_URL` unless it starts with `"http"`. -/
def parse_list (urljoin : String → String → String) (doc : List Html) : List ListingRecord :=
  (selForest cardSelectors doc).map (fun c =>
    { prefecture := ""
      officeName := selectOneText officeSelectors c
      representativeName := selectOneText repSelectors c
      phone := selectOneText telSelectors c
      email := ""
      address := selectOneText addrSelectors c
      registrationEra := normalize_era (selectOneText regSelectors c)
      detailUrl :=
        match firstHref c with
        | some href =>
          some (if "http".data.isPrefixOf href.data then href else urljoin BASE_URL href)
        | none => none })

/-! ## Pagination driver, aggregation and export
(`main`, source lines 121–189) -/

/-- Sentinel `"記載なし"` stored when no email was found. -/
def sentinel : String := "記載なし"

/-- Per-record step of the page loop: attach the detail-fetch result
(or the sentinel when it is empty) and the prefecture
(`r["メールアドレス"] = email if email else "記載なし"`;
`r["県"] = args.pref`). -/
def processRow (emailOf : Option String → String) (pref : String) (r : ListingRecord) :
    ListingRecord :=
  let e := emailOf r.detailUrl
  { r with email := if e = "" then sentinel else e, prefecture := pref }

/-- The `while True` loop of `main`, parametric in the fetched-and-
parsed page contents (`parse page = parse_list (fetch_page ... page)`)
and in the per-record processing.  Returns the number of pages fetched
and the accumulated processed rows.  Fuel-driven: the first component
counts one fetch per iteration, including the final fetch of the empty
page that stops the loop. -/
def runLoop (parse : Nat → List ListingRecord) (proc : ListingRecord → ListingRecord) :
    Nat → Nat → Nat × List ListingRecord
  | _, 0 => (0, [])
  | page, fuel + 1 =>
    let rows := parse page
    if rows = [] then (1, [])
    else
      let r := runLoop parse proc (page + 1) fuel
      (r.1 + 1, rows.map proc ++ r.2)

/-- Deduplication key of `main`:
`df["事務所名"].fillna("") + "|" + df["電話番号"].fillna("")`. -/
def dedupKey (r : ListingRecord) : String :=
  r.officeName ++ "|" ++ r.phone

/-- Pandas `drop_duplicates(subset=["key"], keep="first")`, generic in
the key: keep a row when its key was not seen earlier. -/
def dropDupGo {α κ : Type} [DecidableEq κ] (key : α → κ) : List α → List κ → List α
  | [], _ => []
  | r :: rs, seen =>
    if key r ∈ seen then dropDupGo key rs seen
    else r :: dropDupGo key rs (key r :: seen)

/-- Pandas `drop_duplicates(..., keep="first")` starting from no seen
keys. -/
def drop_duplicates_first {α κ : Type} [DecidableEq κ] (key : α → κ) (l : List α) : List α :=
  dropDupGo key l []

/-- Partition `df[df["メールアドレス"] != "記載なし"]` applied after
deduplication. -/
def df_mail (l : List ListingRecord) : List ListingRecord :=
  (drop_duplicates_first dedupKey l).filter (fun r => r.email != sentinel)

/-- Partition `df[df["メールアドレス"] == "記載なし"]` applied after
deduplication. -/
def df_nomail (l : List ListingRecord) : List ListingRecord :=
  (drop_duplicates_first dedupKey l).filter (fun r => r.email == sentinel)

/-- One written spreadsheet sheet: its name, its header row (the
DataFrame columns) and its data rows. -/
structure Sheet where
  name : String
  header : List String
  rows : List (List String)
deriving DecidableEq, Repr

/-- Column header of both sheets: the dict-insertion order of
`parse_list` minus the dropped `detail_url` column. -/
def outputColumns : List String :=
  ["県", "事務所名", "代表者名", "電話番号", "メールアドレス", "住所", "登録年日（平成/令和）"]

/-- Projection of a record to an output row, in header order; the
`detail_url` field is dropped (`drop(columns=["detail_url"])`). -/
def toRow (r : ListingRecord) : List String :=
  [r.prefecture, r.officeName, r.representativeName, r.phone, r.email, r.address,
   r.registrationEra]

/-- The two `to_excel` calls of `main`: the no-email sheet first, then
the email sheet. -/
def exportSheets (pref : String) (l : List ListingRecord) : List Sheet :=
  [{ name := pref ++ "_全件_メールなしのみ", header := outputColumns,
     rows := (df_nomail l).map toRow },
   { name := pref ++ "_メールあり", header := outputColumns,
     rows := (df_mail l).map toRow }]

/-- Whole run of `main` after argument parsing: run the page loop, and
either report no results (`none`, no output file) when nothing
accumulated, or export the two sheets. -/
def mainRun (parse : Nat → List ListingRecord) (emailOf : Option String → String)
    (pref : String) (fuel : Nat) : Option (List Sheet) :=
  let r := runLoop parse (processRow emailOf pref) 1 fuel
  if r.2 = [] then none else some (exportSheets pref r.2)

/-! ## Definitions written from the specification's words

These are comparison points for claims about behaviour the code does
not have; they are never used by the source-model definitions above. -/

/-- Modelled from the spec: removal of the `"mailto:"` prefix only
(the claim's reading), as opposed to the source's removal of every
occurrence. -/
def specStripPrefixOnce (pat : List Char) (l : List Char) : List Char :=
  if pat.isPrefixOf l then l.drop pat.length else l

/-- Modelled from the spec: per-field extraction that tries the
alternative selectors in list order and takes the first selector that
matches anywhere ("the first matching selector's trimmed text"), as
opposed to the source's single comma-selector query in document
order. -/
def specFieldTextBySelectorOrder (sels : List Selector) (card : Html) : String :=
  match sels with
  | [] => ""
  | s :: rest =>
    match (selDescendants [s] card).head? with
    | some e => elemTextStrip e
    | none => specFieldTextBySelectorOrder rest card

/-- Modelled from the spec: the pair `(officeName, phone)` as a
deduplication key (the claim's composite key), as opposed to the
source's string concatenation with `"|"`. -/
def specPairKey (r : ListingRecord) : String × String :=
  (r.officeName, r.phone)

/-- Modelled from the spec: the "has email" sheet content the claim
describes — after the composite-key deduplication, an additional
deduplication of the email-present rows by office name alone. -/
def specMailSheetOfficeDedup (l : List ListingRecord) : List ListingRecord :=
  drop_duplicates_first (fun r => r.officeName) (df_mail l)

/-! ## Concrete inputs used by counterexamples and witnesses -/

/-- Record with a `"|"` inside the office name (key-collision input). -/
def c9ra : ListingRecord := ⟨"", "a|b", "", "c", "", "", "", none⟩

/-- Record whose distinct pair produces the same concatenated key. -/
def c9rb : ListingRecord := ⟨"", "a", "", "b|c", "", "", "", none⟩

/-- Email-present record of an office, first phone number. -/
def c1r1 : ListingRecord :=
  ⟨"静岡", "山田税理士事務所", "山田", "054-111", "a@b.jp", "静岡市", "", none⟩

/-- Email-present record of the same office, second phone number. -/
def c1r2 : ListingRecord :=
  ⟨"静岡", "山田税理士事務所", "佐藤", "054-222", "c@d.jp", "静岡市", "", none⟩

/-- Document with a `mailto:` anchor whose address carries surrounding
whitespace. -/
def c4docMailto : List Html :=
  [Html.elem "a" [("href", "mailto:  a@b.co.jp ")] [Html.text "mail"]]

/-- Document with no anchor and an address in its plain text. -/
def c4docText : List Html :=
  [Html.elem "p" [] [Html.text "contact: x.y+1@sub.example.com please"]]

/-- Document with neither a `mailto:` anchor nor an address in its
text. -/
def c4docNeither : List Html :=
  [Html.elem "p" [] [Html.text "hello"]]

/-- Document whose `mailto:` href contains a second, internal
`"mailto:"` occurrence. -/
def c4docDouble : List Html :=
  [Html.elem "a" [("href", "mailto:xmailto:y@z.co")] [Html.text "m"]]

/-- Document whose `mailto:` href holds a value that is not an email
address. -/
def c10docUnvalidated : List Html :=
  [Html.elem "a" [("href", "mailto:not-an-address?subject=x")] [Html.text "m"]]

/-- Document whose `mailto:` href has an internal `"mailto:"` inside an
otherwise plausible address. -/
def c10docInternal : List Html :=
  [Html.elem "a" [("href", "mailto:amailto:b@c.de")] [Html.text "m"]]

/-- Card whose `.name` element precedes its `.officeName` element in
document order. -/
def c7card : Html :=
  Html.elem "div" [("class", "resultItem")]
    [Html.elem "div" [("class", "name")] [Html.text "N"],
     Html.elem "div" [("class", "officeName")] [Html.text "O"],
     Html.elem "a" [("href", "/detail/1")] [Html.text "detail"]]

/-- Card with no office-name element (and no anchor) at all. -/
def c7cardNoOffice : Html :=
  Html.elem "div" [("class", "listItem")]
    [Html.elem "div" [("class", "tel")] [Html.text " 03-1234 "]]

/-- Page with no matching card. -/
def c7page0 : List Html :=
  [Html.elem "div" [] [Html.text "no cards"]]

/-! # Theorems

Helper lemmas first, then one theorem per claim (with its witness or
counterexample where required). -/

/-- The deduplicated list is a sublist of the input: surviving rows
keep their encounter order. -/
theorem dropDupGo_sublist {α κ : Type} [DecidableEq κ] (key : α → κ) :
    ∀ (l : List α) (seen : List κ), List.Sublist (dropDupGo key l seen) l := by
  intro l
  induction l with
  | nil => intro seen; simp [dropDupGo]
  | cons r rs ih =>
    intro seen
    by_cases h : key r ∈ seen
    · simp only [dropDupGo, if_pos h]
      exact List.Sublist.cons r (ih seen)
    · simp only [dropDupGo, if_neg h]
      exact List.Sublist.cons₂ r (ih (key r :: seen))

/-- Members of the deduplicated list come from the input and their key
was not among the already-seen keys. -/
theorem mem_dropDupGo {α κ : Type} [DecidableEq κ] (key : α → κ) :
    ∀ (l : List α) (seen : List κ) (s : α),
      s ∈ dropDupGo key l seen → s ∈ l ∧ key s ∉ seen := by
  intro l
  induction l with
  | nil => intro seen s h; simp [dropDupGo] at h
  | cons r rs ih =>
    intro seen s h
    by_cases hk : key r ∈ seen
    · simp only [dropDupGo, if_pos hk] at h
      obtain ⟨h1, h2⟩ := ih seen s h
      exact ⟨List.mem_cons_of_mem r h1, h2⟩
    · simp only [dropDupGo, if_neg hk] at h
      rcases List.mem_cons.mp h with h | h
      · subst h
        exact ⟨List.mem_cons_self s rs, hk⟩
      · obtain ⟨h1, h2⟩ := ih (key r :: seen) s h
        exact ⟨List.mem_cons_of_mem r h1,
          fun hs => h2 (List.mem_cons_of_mem (key r) hs)⟩

/-- Every survivor of the deduplication is the first input row bearing
its key. -/
theorem dropDupGo_find {α κ : Type} [DecidableEq κ] (key : α → κ) :
    ∀ (l : List α) (seen : List κ) (s : α), s ∈ dropDupGo key l seen →
      l.find? (fun x => decide (key x = key s)) = some s := by
  intro l
  induction l with
  | nil => intro seen s h; simp [dropDupGo] at h
  | cons r rs ih =>
    intro seen s h
    by_cases hk : key r ∈ seen
    · simp only [dropDupGo, if_pos hk] at h
      have hns := (mem_dropDupGo key rs seen s h).2
      have hne : key r ≠ key s := fun he => hns (he ▸ hk)
      rw [List.find?_cons_of_neg rs (by simpa using hne)]
      exact ih seen s h
    · simp only [dropDupGo, if_neg hk] at h
      rcases List.mem_cons.mp h with h | h
      · subst h
        exact List.find?_cons_of_pos rs (by simp)
      · have hns := (mem_dropDupGo key rs (key r :: seen) s h).2
        have hne : key r ≠ key s := fun he =>
          hns (he ▸ List.mem_cons_self (key r) seen)
        rw [List.find?_cons_of_neg rs (by simpa using hne)]
        exact ih (key r :: seen) s h

/-- Every input row's key is either already seen or represented by a
survivor. -/
theorem dropDupGo_covers {α κ : Type} [DecidableEq κ] (key : α → κ) :
    ∀ (l : List α) (seen : List κ) (r : α), r ∈ l →
      key r ∈ seen ∨ ∃ s ∈ dropDupGo key l seen, key s = key r := by
  intro l
  induction l with
  | nil => intro seen r h; simp at h
  | cons r0 rs ih =>
    intro seen r h
    by_cases hk : key r0 ∈ seen
    · simp only [dropDupGo, if_pos hk]
      rcases List.mem_cons.mp h with h | h
      · subst h; exact Or.inl hk
      · exact ih seen r h
    · simp only [dropDupGo, if_neg hk]
      rcases List.mem_cons.mp h with h | h
      · subst h
        exact Or.inr ⟨r, List.mem_cons_self r _, rfl⟩
      · rcases ih (key r0 :: seen) r h with hmem | ⟨s, hs, he⟩
        · rcases List.mem_cons.mp hmem with he | hmem
          · exact Or.inr ⟨r0, List.mem_cons_self r0 _, he.symm⟩
          · exact Or.inl hmem
        · exact Or.inr ⟨s, List.mem_cons_of_mem r0 hs, he⟩

/-- The surviving keys are pairwise distinct. -/
theorem dropDupGo_keys_nodup {α κ : Type} [DecidableEq κ] (key : α → κ) :
    ∀ (l : List α) (seen : List κ), ((dropDupGo key l seen).map key).Nodup := by
  intro l
  induction l with
  | nil => intro seen; simp [dropDupGo]
  | cons r rs ih =>
    intro seen
    by_cases hk : key r ∈ seen
    · simp only [dropDupGo, if_pos hk]; exact ih seen
    · simp only [dropDupGo, if_neg hk, List.map_cons, List.nodup_cons]
      refine ⟨fun hmem => ?_, ih (key r :: seen)⟩
      obtain ⟨s, hs, he⟩ := List.mem_map.mp hmem
      exact (mem_dropDupGo key rs (key r :: seen) s hs).2
        (he ▸ List.mem_cons_self (key r) seen)

/-- C9: the deduplication key concatenates office name, `"|"` and
phone, so the distinct pairs `("a|b", "c")` and `("a", "b|c")` receive
the same key; the second record is collapsed away, while deduplication
by the pair itself would keep both. -/
theorem c9_key_collision :
    dedupKey c9ra = dedupKey c9rb ∧
    specPairKey c9ra ≠ specPairKey c9rb ∧
    drop_duplicates_first dedupKey [c9ra, c9rb] = [c9ra] ∧
    drop_duplicates_first specPairKey [c9ra, c9rb] = [c9ra, c9rb] := by
  refine ⟨rfl, by decide, by decide, by decide⟩

/-- C1 counterexample: two email-present records of the same office
with different phone numbers both survive the exporter's partition
(`df_mail`), although the claimed additional deduplication by office
name alone would keep only the first. -/
theorem c1_counterexample :
    c1r1.officeName = c1r2.officeName ∧
    c1r1.email ≠ sentinel ∧ c1r2.email ≠ sentinel ∧
    df_mail [c1r1, c1r2] = [c1r1, c1r2] ∧
    specMailSheetOfficeDedup [c1r1, c1r2] = [c1r1] ∧
    df_mail [c1r1, c1r2] ≠ specMailSheetOfficeDedup [c1r1, c1r2] := by
  refine ⟨rfl, by decide, by decide, by decide, by decide, by decide⟩

/-- C1 (amended): the exporter deduplicates by the concatenated
`officeName ++ "|" ++ phone` string key, keeping the first occurrence
in encounter order (the output is a sublist of the input with pairwise
distinct keys, covering every input key, each survivor being the first
input row with its key), and the "has email" partition is exactly the
email-bearing subset of that deduplicated list — no further
deduplication by office name happens inside it. -/
theorem c1_dedup_first_occurrence (l : List ListingRecord) :
    List.Sublist (drop_duplicates_first dedupKey l) l ∧
    ((drop_duplicates_first dedupKey l).map dedupKey).Nodup ∧
    (∀ r ∈ l, ∃ s ∈ drop_duplicates_first dedupKey l, dedupKey s = dedupKey r) ∧
    (∀ s ∈ drop_duplicates_first dedupKey l,
      l.find? (fun x => decide (dedupKey x = dedupKey s)) = some s) ∧
    (∀ r, r ∈ df_mail l ↔ r ∈ drop_duplicates_first dedupKey l ∧ r.email ≠ sentinel) ∧
    (∀ r, r ∈ df_nomail l ↔ r ∈ drop_duplicates_first dedupKey l ∧ r.email = sentinel) := by
  refine ⟨dropDupGo_sublist dedupKey l [], dropDupGo_keys_nodup dedupKey l [], ?_, ?_, ?_, ?_⟩
  · intro r hr
    rcases dropDupGo_covers dedupKey l [] r hr with h | h
    · simp at h
    · exact h
  · intro s hs
    exact dropDupGo_find dedupKey l [] s hs
  · intro r
    simp [df_mail, List.mem_filter, bne_iff_ne]
  · intro r
    simp [df_nomail, List.mem_filter, beq_iff_eq]

/-- C1 witness: the characterization evaluated on the two-record
input. -/
theorem c1_witness :
    (∃ s ∈ drop_duplicates_first dedupKey [c1r1, c1r2], dedupKey s = dedupKey c1r2) ∧
    [c1r1, c1r2].find? (fun x => decide (dedupKey x = dedupKey c1r2)) = some c1r2 ∧
    c1r2 ∈ df_mail [c1r1, c1r2] := by
  obtain ⟨-, -, hcov, hfind, hmail, -⟩ := c1_dedup_first_occurrence [c1r1, c1r2]
  refine ⟨hcov c1r2 (by decide), hfind c1r2 (by decide), (hmail c1r2).mpr ⟨by decide, by decide⟩⟩

/-- The era alternation only ever matches the two era names. -/
theorem eraHead_cases (l era r1 : List Char) (h : eraHead l = some (era, r1)) :
    era = ['平', '成'] ∨ era = ['令', '和'] := by
  unfold eraHead at h
  split at h
  · simp only [Option.some.injEq, Prod.mk.injEq] at h
    exact Or.inl h.1.symm
  · simp only [Option.some.injEq, Prod.mk.injEq] at h
    exact Or.inr h.1.symm
  · exact absurd h (by simp)

/-- Every successful anchored era match has the declarative shape. -/
theorem matchEraAt_shape (l m rest : List Char) (h : matchEraAt l = some (m, rest)) :
    EraShape m := by
  unfold matchEraAt at h
  cases he : eraHead l with
  | none => rw [he] at h; simp at h
  | some p =>
    obtain ⟨era, r1⟩ := p
    rw [he] at h
    simp only at h
    have hera := eraHead_cases l era r1 he
    have hsp : ∀ c ∈ r1.takeWhile isSpaceRe, isSpaceRe c = true :=
      fun c hc => List.mem_takeWhile_imp hc
    have hds : ∀ c ∈ (r1.dropWhile isSpaceRe).takeWhile isDigitRe, isDigitRe c = true :=
      fun c hc => List.mem_takeWhile_imp hc
    split at h
    · simp at h
    · rename_i hne
      have hdsne : (r1.dropWhile isSpaceRe).takeWhile isDigitRe ≠ [] := by
        intro h0; rw [h0] at hne; simp at hne
      split at h
      · rename_i r4 heq
        have hds2 : ∀ c ∈ r4.takeWhile isDigitRe, isDigitRe c = true :=
          fun c hc => List.mem_takeWhile_imp hc
        split at h
        · simp only [Option.some.injEq, Prod.mk.injEq] at h
          exact ⟨era, _, _, [], h.1.symm, hera, hsp, hdsne, hds, Or.inl rfl⟩
        · rename_i h2
          have hds2ne : r4.takeWhile isDigitRe ≠ [] := by
            intro h0; rw [h0] at h2; simp at h2
          split at h
          · simp only [Option.some.injEq, Prod.mk.injEq] at h
            exact ⟨era, _, _, r4.takeWhile isDigitRe ++ ['月'], h.1.symm, hera, hsp,
              hdsne, hds, Or.inr ⟨_, rfl, hds2ne, hds2⟩⟩
          · simp only [Option.some.injEq, Prod.mk.injEq] at h
            exact ⟨era, _, _, [], h.1.symm, hera, hsp, hdsne, hds, Or.inl rfl⟩
      · simp at h

/-- Every match produced by the finditer scan has the declarative
shape. -/
theorem findErasAux_shape :
    ∀ (fuel : Nat) (l : List Char), ∀ m ∈ findErasAux fuel l, EraShape m := by
  intro fuel
  induction fuel with
  | zero => intro l m h; simp [findErasAux] at h
  | succ fuel ih =>
    intro l m h
    cases l with
    | nil => simp [findErasAux] at h
    | cons c cs =>
      simp only [findErasAux] at h
      cases hm : matchEraAt (c :: cs) with
      | none => rw [hm] at h; exact ih cs m h
      | some p =>
        obtain ⟨m0, rest⟩ := p
        rw [hm] at h
        rcases List.mem_cons.mp h with h | h
        · exact h ▸ matchEraAt_shape _ _ _ hm
        · exact ih rest m h

/-- When no position of the text admits an anchored era match, the scan
returns no matches. -/
theorem findErasAux_nil :
    ∀ (fuel : Nat) (l : List Char),
      (∀ i, matchEraAt (l.drop i) = none) → findErasAux fuel l = [] := by
  intro fuel
  induction fuel with
  | zero => intro l _; rfl
  | succ fuel ih =>
    intro l hl
    cases l with
    | nil => rfl
    | cons c cs =>
      simp only [findErasAux]
      have h0 := hl 0
      simp only [List.drop_zero] at h0
      rw [h0]
      exact ih cs (fun i => by simpa [List.drop_succ_cons] using hl (i + 1))

/-- Characters of a separator join come from the separator or from one
of the parts. -/
theorem mem_joinSep (sep : List Char) :
    ∀ (parts : List (List Char)) (c : Char), c ∈ joinSep sep parts →
      c ∈ sep ∨ ∃ p ∈ parts, c ∈ p := by
  intro parts
  induction parts with
  | nil => intro c h; simp [joinSep] at h
  | cons x t ih =>
    cases t with
    | nil => intro c h; exact Or.inr ⟨x, by simp, h⟩
    | cons y t2 =>
      intro c h
      simp only [joinSep, List.append_assoc, List.mem_append] at h
      rcases h with h | h | h
      · exact Or.inr ⟨x, by simp, h⟩
      · exact Or.inl h
      · rcases ih c h with h | ⟨p, hp, hc⟩
        · exact Or.inl h
        · exact Or.inr ⟨p, List.mem_cons_of_mem x hp, hc⟩

/-- The normalizer output never contains an ASCII space: each match is
emitted through `replace(" ", "")` and the separator is `"／"`. -/
theorem normalize_era_no_space (text : String) : ' ' ∉ (normalize_era text).data := by
  intro hmem
  rcases mem_joinSep "／".data _ ' ' hmem with h | ⟨p, hp, hc⟩
  · simp at h
  · obtain ⟨m, -, rfl⟩ := List.mem_map.mp hp
    have := (List.mem_filter.mp hc).2
    simp at this

/-- C2 counterexample: on the spec's test vector the normalizer returns
`"平成31年／令和2年"` — the `3月` token is not part of any match, because
the regex allows no whitespace between `年` and the month digits — and
not the claimed `"平成31年3月／令和2年"`. -/
theorem c2_counterexample :
    normalize_era "平成 31年 3月 引き続き 令和2年" = "平成31年／令和2年" ∧
    normalize_era "平成 31年 3月 引き続き 令和2年" ≠ "平成31年3月／令和2年" :=
  ⟨rfl, by decide⟩

/-- C2 (amended): the era normalizer returns the non-overlapping
left-to-right matches of `(平成|令和) [whitespace] digits 年` optionally
followed immediately (no intervening whitespace) by `digits 月`, with
the ASCII space characters removed from each match, joined in order of
appearance by `"／"`; it returns the empty string when no position of
the text admits a match; for input `"平成 31年 3月 引き続き 令和2年"` it
returns `"平成31年／令和2年"`. -/
theorem c2_era_normalizer :
    (∀ text : String, ∀ m ∈ findEraMatches text.data, EraShape m) ∧
    (∀ text : String, (∀ i, matchEraAt (text.data.drop i) = none) → normalize_era text = "") ∧
    (∀ text : String, ' ' ∉ (normalize_era text).data) ∧
    normalize_era "平成 31年 3月 引き続き 令和2年" = "平成31年／令和2年" := by
  refine ⟨?_, ?_, normalize_era_no_space, rfl⟩
  · intro text m hm
    exact findErasAux_shape _ _ m hm
  · intro text h
    unfold normalize_era findEraMatches
    rw [findErasAux_nil _ _ h]
    rfl

/-- C2 witness: the shape of a concrete matched token, and the empty
output on a concrete matchless text. -/
theorem c2_witness : EraShape "令和2年".data ∧ normalize_era "abc" = "" := by
  constructor
  · exact c2_era_normalizer.1 "令和2年" "令和2年".data (by decide)
  · refine c2_era_normalizer.2.1 "abc" (fun i => ?_)
    rcases Nat.lt_or_ge i 3 with h | h
    · interval_cases i <;> decide
    · rw [List.drop_eq_nil_of_le (by simpa using h)]
      decide

/-- Every successful domain match decomposes as a nonempty domain run,
a dot, and a top-level-domain run of at least two letters. -/
theorem matchDomain_shape (rest d : List Char) (h : matchDomain rest = some d) :
    ∃ dom tld, d = dom ++ '.' :: tld ∧ dom ≠ [] ∧ (∀ c ∈ dom, isDomainChar c = true) ∧
      2 ≤ tld.length ∧ (∀ c ∈ tld, Char.isAlpha c = true) := by
  unfold matchDomain at h
  simp only at h
  cases hj : ((List.range (rest.takeWhile isDomainChar).length).filter
      (fun j => goodDot (rest.takeWhile isDomainChar) j)).getLast? with
  | none => rw [hj] at h; simp at h
  | some j =>
    rw [hj] at h
    simp only [Option.some.injEq] at h
    have hjmem := List.mem_of_mem_getLast? (l := (List.range
      (rest.takeWhile isDomainChar).length).filter
      (fun j => goodDot (rest.takeWhile isDomainChar) j)) (a := j) hj
    obtain ⟨hrange, hgood⟩ := List.mem_filter.mp hjmem
    have hjlt : j < (rest.takeWhile isDomainChar).length := List.mem_range.mp hrange
    simp only [goodDot, Bool.and_eq_true, decide_eq_true_eq, beq_iff_eq] at hgood
    obtain ⟨⟨hj1, -⟩, hlen⟩ := hgood
    refine ⟨(rest.takeWhile isDomainChar).take j,
      ((rest.takeWhile isDomainChar).drop (j + 1)).takeWhile Char.isAlpha,
      h.symm, ?_, ?_, hlen, ?_⟩
    · have : 0 < ((rest.takeWhile isDomainChar).take j).length := by
        rw [List.length_take]; omega
      exact List.ne_nil_of_length_pos this
    · intro c hc
      exact List.mem_takeWhile_imp (List.mem_of_mem_take hc)
    · intro c hc
      exact List.mem_takeWhile_imp hc

/-- Every successful anchored email match has the declarative shape. -/
theorem matchEmailAt_shape (l m : List Char) (h : matchEmailAt l = some m) :
    EmailShape m := by
  unfold matchEmailAt at h
  simp only at h
  split at h
  · simp at h
  · rename_i hne
    split at h
    · rename_i rest heq
      cases hd : matchDomain rest with
      | none => rw [hd] at h; simp at h
      | some d =>
        rw [hd] at h
        simp only [Option.map_some', Option.some.injEq] at h
        obtain ⟨dom, tld, hdec, hdne, hdc, htl, hta⟩ := matchDomain_shape rest d hd
        refine ⟨l.takeWhile isLocalChar, dom, tld, by rw [← h, hdec], ?_, ?_, hdne, hdc,
          htl, hta⟩
        · intro h0; rw [h0] at hne; simp at hne
        · intro c hc; exact List.mem_takeWhile_imp hc
    · simp at h

/-- The search scan returns the match of the leftmost position that
admits one. -/
theorem searchEmail_leftmost :
    ∀ (l m : List Char), searchEmail l = some m →
      ∃ i, matchEmailAt (l.drop i) = some m ∧ ∀ j < i, matchEmailAt (l.drop j) = none := by
  intro l
  induction l with
  | nil => intro m h; simp [searchEmail] at h
  | cons c cs ih =>
    intro m h
    simp only [searchEmail] at h
    cases hm : matchEmailAt (c :: cs) with
    | some m0 =>
      rw [hm] at h
      simp only [Option.some.injEq] at h
      subst h
      exact ⟨0, by simpa using hm, fun j hj => absurd hj (Nat.not_lt_zero j)⟩
    | none =>
      rw [hm] at h
      obtain ⟨i, h1, h2⟩ := ih m h
      refine ⟨i + 1, by simpa [List.drop_succ_cons] using h1, ?_⟩
      intro j hj
      cases j with
      | zero => simpa using hm
      | succ j => simpa [List.drop_succ_cons] using h2 j (by omega)

/-- When no position of the text admits an anchored email match, the
search returns nothing. -/
theorem searchEmail_nil :
    ∀ l : List Char, (∀ i, matchEmailAt (l.drop i) = none) → searchEmail l = none := by
  intro l
  induction l with
  | nil => intro _; rfl
  | cons c cs ih =>
    intro hl
    simp only [searchEmail]
    have h0 := hl 0
    simp only [List.drop_zero] at h0
    rw [h0]
    exact ih (fun i => by simpa [List.drop_succ_cons] using hl (i + 1))

/-- A string of the email shape contains an `@`. -/
theorem emailShape_has_at (m : List Char) (h : EmailShape m) : '@' ∈ m := by
  obtain ⟨loc, dom, tld, rfl, -⟩ := h
  simp

/-- C4 counterexample: the `mailto:` branch removes every occurrence of
`"mailto:"` from the href, not just the leading prefix, so on an href
with an internal `"mailto:"` the code's result differs from the
claim's "remove the prefix and trim" value. -/
theorem c4_counterexample :
    firstMailtoHref c4docDouble = some "mailto:xmailto:y@z.co" ∧
    emailFromDoc c4docDouble = "xy@z.co" ∧
    pyStrip (String.mk (specStripPrefixOnce "mailto:".data "mailto:xmailto:y@z.co".data)) =
      "xmailto:y@z.co" ∧
    emailFromDoc c4docDouble ≠
      pyStrip (String.mk (specStripPrefixOnce "mailto:".data "mailto:xmailto:y@z.co".data)) :=
  ⟨rfl, rfl, rfl, by decide⟩

/-- C4 (amended): the email extractor first looks for the first anchor
whose href begins with `"mailto:"`; if its href is non-empty after
removing every `"mailto:"` occurrence and trimming surrounding
whitespace, that trimmed value is returned; otherwise the document is
flattened to whitespace-joined text and the first substring matching
the `local@domain.tld` regex is returned (`empty` when no position
matches); the three concrete vectors behave as stated. -/
theorem c4_email_extractor :
    (∀ (doc : List Html) (href : String), firstMailtoHref doc = some href →
      pyStrip (removeAll "mailto:" href) ≠ "" →
      emailFromDoc doc = pyStrip (removeAll "mailto:" href)) ∧
    (∀ (doc : List Html) (href : String), firstMailtoHref doc = some href →
      pyStrip (removeAll "mailto:" href) = "" →
      emailFromDoc doc = extract_email (soupGetText " " doc)) ∧
    (∀ doc : List Html, firstMailtoHref doc = none →
      emailFromDoc doc = extract_email (soupGetText " " doc)) ∧
    (∀ text : String, extract_email text ≠ "" →
      EmailShape (extract_email text).data ∧
      ∃ i, matchEmailAt (text.data.drop i) = some (extract_email text).data ∧
        ∀ j < i, matchEmailAt (text.data.drop j) = none) ∧
    (∀ text : String, (∀ i, matchEmailAt (text.data.drop i) = none) →
      extract_email text = "") ∧
    emailFromDoc c4docMailto = "a@b.co.jp" ∧
    emailFromDoc c4docText = "x.y+1@sub.example.com" ∧
    emailFromDoc c4docNeither = "" := by
  refine ⟨?_, ?_, ?_, ?_, ?_, rfl, rfl, rfl⟩
  · intro doc href h h2
    unfold emailFromDoc
    rw [h]
    simp [h2]
  · intro doc href h h2
    unfold emailFromDoc
    rw [h]
    simp [h2]
  · intro doc h
    unfold emailFromDoc
    rw [h]
  · intro text h
    cases hs : searchEmail text.data with
    | none =>
      exfalso
      apply h
      unfold extract_email
      rw [hs]
    | some m =>
      have hval : extract_email text = String.mk m := by unfold extract_email; rw [hs]
      rw [hval]
      obtain ⟨i, h1, h2⟩ := searchEmail_leftmost text.data m hs
      exact ⟨matchEmailAt_shape _ m h1, i, h1, h2⟩
  · intro text h
    unfold extract_email
    rw [searchEmail_nil text.data h]

/-- C4 witness: the mailto branch evaluated on the concrete anchor
document, and the shape of the text-scan result on the concrete plain
text. -/
theorem c4_witness :
    emailFromDoc c4docMailto = pyStrip (removeAll "mailto:" "mailto:  a@b.co.jp ") ∧
    EmailShape (extract_email "contact: x.y+1@sub.example.com please").data := by
  obtain ⟨ha, -, -, hd, -⟩ := c4_email_extractor
  constructor
  · exact ha c4docMailto "mailto:  a@b.co.jp " rfl (by decide)
  · exact (hd "contact: x.y+1@sub.example.com please" (by decide)).1

/-- C10: the `mailto:` branch performs no validation — a non-address
href value is returned as the email even though it has no email shape
and the text-scan regex would reject it — and the `"mailto:"` removal
is a global replacement that also deletes internal occurrences. -/
theorem c10_mailto_branch :
    emailFromDoc c10docUnvalidated = "not-an-address?subject=x" ∧
    ¬ EmailShape "not-an-address?subject=x".data ∧
    extract_email "not-an-address?subject=x" = "" ∧
    removeAll "mailto:" "mailto:amailto:b@c.de" = "ab@c.de" ∧
    emailFromDoc c10docInternal = "ab@c.de" := by
  refine ⟨rfl, ?_, rfl, rfl, rfl⟩
  intro h
  exact absurd (emailShape_has_at _ h) (by decide)

/-- The page loop, started at page `p` with pages `p, …, N-1` nonempty
and page `N` empty, fetches exactly the pages `p, …, N` and accumulates
the processed rows of pages `p, …, N-1` in page order, for any
sufficient fuel. -/
theorem runLoop_eq (parse : Nat → List ListingRecord) (proc : ListingRecord → ListingRecord)
    (N : Nat) (hN : parse N = []) :
    ∀ fuel p, p ≤ N → (∀ k, p ≤ k → k < N → parse k ≠ []) → N - p < fuel →
      runLoop parse proc p fuel =
        (N + 1 - p, ((List.range' p (N - p)).map (fun k => (parse k).map proc)).flatten) := by
  intro fuel
  induction fuel with
  | zero => intro p _ _ hf; omega
  | succ fuel ih =>
    intro p hp hprev hf
    by_cases hpN : p = N
    · subst hpN
      simp [runLoop, hN]
    · have hplt : p < N := lt_of_le_of_ne hp hpN
      have hne : parse p ≠ [] := hprev p le_rfl hplt
      simp only [runLoop]
      rw [if_neg hne, ih (p + 1) (by omega) (fun k hk1 hk2 => hprev k (by omega) hk2)
        (by omega)]
      obtain ⟨d, hd⟩ : ∃ d, N - p = d + 1 := ⟨N - p - 1, by omega⟩
      rw [hd, List.range'_succ, show N - (p + 1) = d from by omega]
      simp only [List.map_cons, List.flatten_cons, Prod.mk.injEq]
      refine ⟨by omega, ?_⟩
      simp

/-- C3: when page `N` (1-based) is the first page parsing to zero
records, the driver makes exactly `N` fetch calls and accumulates the
processed records of pages `1, …, N-1` in page order, for any fuel of
at least `N`; when the very first page is already empty, the run
reports no results and produces no output. -/
theorem c3_pagination_driver (parse : Nat → List ListingRecord)
    (emailOf : Option String → String) (pref : String) (N fuel : Nat)
    (hN1 : 1 ≤ N) (hN : parse N = [])
    (hprev : ∀ k, 1 ≤ k → k < N → parse k ≠ []) (hfuel : N ≤ fuel) :
    runLoop parse (processRow emailOf pref) 1 fuel =
      (N, ((List.range' 1 (N - 1)).map
        (fun k => (parse k).map (processRow emailOf pref))).flatten) ∧
    (N = 1 → mainRun parse emailOf pref fuel = none) := by
  have hmain := runLoop_eq parse (processRow emailOf pref) N hN fuel 1 hN1 hprev (by omega)
  rw [show N + 1 - 1 = N from by omega] at hmain
  refine ⟨hmain, ?_⟩
  intro h1
  subst h1
  unfold mainRun
  rw [hmain]
  simp

/-- C3 witness: with pages 1 and 2 each holding one record and page 3
empty, the loop makes three fetches and accumulates pages 1 and 2; an
empty first page yields no output. -/
theorem c3_witness :
    runLoop (fun n => if n ≤ 2 then [c9ra] else []) (processRow (fun _ => "") "東京") 1 3 =
      (3, ((List.range' 1 (3 - 1)).map
        (fun k => ((fun n => if n ≤ 2 then [c9ra] else []) k).map
          (processRow (fun _ => "") "東京"))).flatten) ∧
    mainRun (fun _ => ([] : List ListingRecord)) (fun _ => "") "東京" 1 = none := by
  constructor
  · exact (c3_pagination_driver (fun n => if n ≤ 2 then [c9ra] else []) (fun _ => "") "東京"
      3 3 (by omega) rfl
      (fun k h1 h2 => by simp [show k ≤ 2 from by omega]) le_rfl).1
  · exact (c3_pagination_driver (fun _ => ([] : List ListingRecord)) (fun _ => "") "東京"
      1 1 le_rfl rfl (fun k h1 h2 => (by omega : False).elim) le_rfl).2 rfl

/-- C5: the detail fetcher returns the empty string for an absent URL
(also for the empty-string URL, since Python `if not url` treats it
alike), for a network error and for a non-success HTTP status, and the
driver records the empty result as the sentinel for that record. -/
theorem c5_detail_fetcher_failures (fetch : String → FetchResult) (u : String)
    (pref : String) (r : ListingRecord) (emailOf : Option String → String) :
    fetch_email_from_detail fetch none = "" ∧
    fetch_email_from_detail fetch (some "") = "" ∧
    (fetch u = FetchResult.netError → fetch_email_from_detail fetch (some u) = "") ∧
    (∀ status, fetch u = FetchResult.httpError status →
      fetch_email_from_detail fetch (some u) = "") ∧
    (emailOf r.detailUrl = "" → (processRow emailOf pref r).email = sentinel) := by
  refine ⟨rfl, rfl, ?_, ?_, ?_⟩
  · intro hf
    by_cases hu : u = ""
    · subst hu; rfl
    · simp only [fetch_email_from_detail, if_neg hu, hf]
  · intro status hf
    by_cases hu : u = ""
    · subst hu; rfl
    · simp only [fetch_email_from_detail, if_neg hu, hf]
  · intro he
    simp [processRow, he]

/-- C5 witness: the three failure cases evaluated on concrete fetch
functions, and the sentinel recorded for the concrete record. -/
theorem c5_witness :
    fetch_email_from_detail (fun _ => FetchResult.netError) (some "http://x") = "" ∧
    fetch_email_from_detail (fun _ => FetchResult.httpError 404) (some "http://x") = "" ∧
    (processRow (fun _ => "") "静岡" c9ra).email = sentinel := by
  refine ⟨?_, ?_, ?_⟩
  · exact (c5_detail_fetcher_failures (fun _ => FetchResult.netError) "http://x" "静岡" c9ra
      (fun _ => "")).2.2.1 rfl
  · exact (c5_detail_fetcher_failures (fun _ => FetchResult.httpError 404) "http://x" "静岡"
      c9ra (fun _ => "")).2.2.2.1 404 rfl
  · exact (c5_detail_fetcher_failures (fun _ => FetchResult.netError) "x" "静岡" c9ra
      (fun _ => "")).2.2.2.2 rfl

/-- Every accumulated row of the page loop is the image of some parsed
row under the per-record processing. -/
theorem runLoop_mem (parse : Nat → List ListingRecord) (proc : ListingRecord → ListingRecord) :
    ∀ (fuel page : Nat) (r : ListingRecord), r ∈ (runLoop parse proc page fuel).2 →
      ∃ r0, r = proc r0 := by
  intro fuel
  induction fuel with
  | zero => intro page r h; simp [runLoop] at h
  | succ fuel ih =>
    intro page r h
    simp only [runLoop] at h
    by_cases hrows : parse page = []
    · rw [if_pos hrows] at h; simp at h
    · rw [if_neg hrows] at h
      simp only [List.mem_append] at h
      rcases h with h | h
      · obtain ⟨r0, -, rfl⟩ := List.mem_map.mp h
        exact ⟨r0, rfl⟩
      · exact ih (page + 1) r h

/-- C6: every record accumulated by the driver has a non-empty email
field — the sentinel or a non-empty extracted address —, the two
partitions of the deduplicated list are disjoint and exhaustive, and a
sentinel record never enters the "has email" partition. -/
theorem c6_email_invariant (parse : Nat → List ListingRecord)
    (emailOf : Option String → String) (pref : String) (fuel page : Nat) :
    (∀ r ∈ (runLoop parse (processRow emailOf pref) page fuel).2,
      r.email ≠ "" ∧
      (r.email = sentinel ∨ (r.email = emailOf r.detailUrl ∧ emailOf r.detailUrl ≠ ""))) ∧
    (∀ (l : List ListingRecord) (r : ListingRecord), ¬(r ∈ df_mail l ∧ r ∈ df_nomail l)) ∧
    (∀ (l : List ListingRecord) (r : ListingRecord), r ∈ drop_duplicates_first dedupKey l →
      r ∈ df_mail l ∨ r ∈ df_nomail l) ∧
    (∀ (l : List ListingRecord) (r : ListingRecord), r.email = sentinel → r ∉ df_mail l) := by
  refine ⟨?_, ?_, ?_, ?_⟩
  · intro r hr
    obtain ⟨r0, rfl⟩ := runLoop_mem parse (processRow emailOf pref) fuel page r hr
    simp only [processRow]
    by_cases he : emailOf r0.detailUrl = ""
    · simp only [he, if_pos rfl]
      exact ⟨by decide, Or.inl rfl⟩
    · rw [if_neg he]
      exact ⟨he, Or.inr ⟨rfl, he⟩⟩
  · intro l r ⟨h1, h2⟩
    have p1 := (List.mem_filter.mp h1).2
    have p2 := (List.mem_filter.mp h2).2
    simp only [bne_iff_ne, ne_eq, beq_iff_eq] at p1 p2
    exact p1 p2
  · intro l r hmem
    by_cases he : r.email = sentinel
    · exact Or.inr (List.mem_filter.mpr ⟨hmem, by simp [he]⟩)
    · exact Or.inl (List.mem_filter.mpr ⟨hmem, by simp [he]⟩)
  · intro l r he hmem
    have := (List.mem_filter.mp hmem).2
    simp only [bne_iff_ne, ne_eq] at this
    exact this he

/-- C6 witness: the accumulated-record invariant evaluated on a
one-page run whose detail fetch finds nothing. -/
theorem c6_witness :
    (processRow (fun _ => "") "静岡" c9ra).email ≠ "" ∧
    ((processRow (fun _ => "") "静岡" c9ra).email = sentinel ∨
      ((processRow (fun _ => "") "静岡" c9ra).email = "" ∧ ("" : String) ≠ "")) := by
  exact (c6_email_invariant (fun n => if n = 1 then [c9ra] else []) (fun _ => "") "静岡" 2 1).1
    (processRow (fun _ => "") "静岡" c9ra) (by decide)

/-- C8: a run whose loop accumulated a non-empty record list writes
exactly two sheets, the first named `{pref}_全件_メールなしのみ` holding
the sentinel-email rows and the second named `{pref}_メールあり` holding
the email-present rows, both with the seven output columns in order and
without the internal detail-URL field. -/
theorem c8_export_sheets (parse : Nat → List ListingRecord)
    (emailOf : Option String → String) (pref : String) (fuel : Nat)
    (hne : (runLoop parse (processRow emailOf pref) 1 fuel).2 ≠ []) :
    ∃ s1 s2 : Sheet,
      mainRun parse emailOf pref fuel = some [s1, s2] ∧
      s1.name = pref ++ "_全件_メールなしのみ" ∧
      s2.name = pref ++ "_メールあり" ∧
      s1.header = outputColumns ∧ s2.header = outputColumns ∧
      "detail_url" ∉ outputColumns ∧ outputColumns.length = 7 ∧
      s1.rows = (df_nomail (runLoop parse (processRow emailOf pref) 1 fuel).2).map toRow ∧
      s2.rows = (df_mail (runLoop parse (processRow emailOf pref) 1 fuel).2).map toRow ∧
      (∀ row ∈ s1.rows, row.length = 7) ∧ (∀ row ∈ s2.rows, row.length = 7) := by
  refine ⟨{ name := pref ++ "_全件_メールなしのみ", header := outputColumns,
            rows := (df_nomail (runLoop parse (processRow emailOf pref) 1 fuel).2).map toRow },
          { name := pref ++ "_メールあり", header := outputColumns,
            rows := (df_mail (runLoop parse (processRow emailOf pref) 1 fuel).2).map toRow },
          ?_, rfl, rfl, rfl, rfl, by decide, rfl, rfl, rfl, ?_, ?_⟩
  · unfold mainRun
    rw [if_neg hne]
    rfl
  · intro row hrow
    obtain ⟨r, -, rfl⟩ := List.mem_map.mp hrow
    rfl
  · intro row hrow
    obtain ⟨r, -, rfl⟩ := List.mem_map.mp hrow
    rfl

/-- C8 witness: the exporter produces an output on a concrete non-empty
one-page run. -/
theorem c8_witness :
    (mainRun (fun n => if n = 1 then [c9ra] else []) (fun _ => "") "静岡" 2).isSome = true := by
  obtain ⟨s1, s2, hm, -⟩ := c8_export_sheets (fun n => if n = 1 then [c9ra] else [])
    (fun _ => "") "静岡" 2 (by decide)
  rw [hm]
  rfl

/-- C7 counterexample: inside a card whose `.name` element precedes its
`.officeName` element, the parser stores the document-order first match
(`"N"`), not the text of the claim's first matching selector in
priority order (`.officeName`, giving `"O"`). -/
theorem c7_counterexample :
    (parse_list (fun _ h => h) [c7card]).map (fun r => r.officeName) = ["N"] ∧
    specFieldTextBySelectorOrder officeSelectors c7card = "O" ∧
    ("N" : String) ≠ "O" := by
  refine ⟨by decide, by decide, by decide⟩

/-- C7 (amended): the listing parser returns an empty sequence when no
card matches, produces one record per card in order (a missing field
never skips a record), fills each text field with the stripped text of
the document-order first descendant matching any of the field's
alternative selectors (or the empty string when none matches), and sets
the detail URL from the card's first `a[href]` descendant — kept as is
when it starts with `"http"`, otherwise joined onto the base search URL
— or to null when the card has no anchor. -/
theorem c7_listing_extraction :
    (∀ (urljoin : String → String → String) (doc : List Html),
      selForest cardSelectors doc = [] → parse_list urljoin doc = []) ∧
    (∀ (urljoin : String → String → String) (doc : List Html),
      (parse_list urljoin doc).length = (selForest cardSelectors doc).length) ∧
    (∀ (urljoin : String → String → String) (doc : List Html) (i : Nat) (card : Html),
      (selForest cardSelectors doc)[i]? = some card →
      (parse_list urljoin doc)[i]? = some
        { prefecture := "", officeName := selectOneText officeSelectors card,
          representativeName := selectOneText repSelectors card,
          phone := selectOneText telSelectors card, email := "",
          address := selectOneText addrSelectors card,
          registrationEra := normalize_era (selectOneText regSelectors card),
          detailUrl :=
            match firstHref card with
            | some href =>
              some (if "http".data.isPrefixOf href.data then href else urljoin BASE_URL href)
            | none => none }) ∧
    (∀ urljoin : String → String → String, parse_list urljoin c7page0 = []) ∧
    (∀ urljoin : String → String → String,
      (parse_list urljoin [c7cardNoOffice]).map (fun r => r.officeName) = [""]) ∧
    (∀ urljoin : String → String → String,
      (parse_list urljoin [c7cardNoOffice]).map (fun r => r.detailUrl) = [none]) := by
  refine ⟨?_, ?_, ?_, fun _ => rfl, fun _ => rfl, fun _ => rfl⟩
  · intro urljoin doc h
    unfold parse_list
    rw [h]
    rfl
  · intro urljoin doc
    unfold parse_list
    simp
  · intro urljoin doc i card h
    unfold parse_list
    rw [List.getElem?_map, h]
    rfl

/-- C7 witness: the per-card record equation evaluated on the concrete
card with a relative detail link. -/
theorem c7_witness :
    (parse_list (fun _ h => h) [c7card])[0]? = some
      { prefecture := "", officeName := "N", representativeName := "", phone := "",
        email := "", address := "", registrationEra := "", detailUrl := some "/detail/1" } := by
  have h := c7_listing_extraction.2.2.1 (fun _ h => h) [c7card] 0 c7card rfl
  rw [h]
  decide
